import Mathlib

/-
Verification of gunderscore.js (src/gunderscore.js) against its
natural-language specification.

The library operates on JavaScript values.  The fragment of JavaScript
that the verified claims exercise is modelled by `JsVal` below:
integer-valued numbers, the two infinities, primitive strings, booleans,
`undefined`, arrays and plain objects.  (`null`, fractional numbers, NaN
and wrapper objects such as `new String(..)` are not reachable from any
claim and are left out of the model; comments note the spots where they
would matter.)

Runtime failures matter here: `each` declares a local variable `keys`
(line 58) that shadows the module-level `keys` function, so the
non-indexed branch of `each` (line 67, `ks = keys(coll)`) calls
`undefined` and throws a TypeError.  Fallible code is therefore embedded
in `Except JsError`.
-/

/-- A JavaScript value, restricted to the fragment the claims exercise.
`vnum` carries an `Int` (every number appearing in the claims is an
integer); `vinf` is plus or minus Infinity; `varr` and `vobj` are array
and object literals whose contents are themselves values.  `vnative k`
is the built-in member of `Object.prototype` named `k` — the value a
property read on a plain object finds through the prototype chain when
the object has no own property of that name (`memoize` can return such
a value, see `objGet`).  All of these members are truthy. -/
inductive JsVal where
  | vnum (n : Int)
  | vinf (pos : Bool)
  | vstr (s : String)
  | vbool (b : Bool)
  | vundefined
  | varr (elems : List JsVal)
  | vobj (props : List (String × JsVal))
  | vnative (name : String)
deriving Repr

/-- The only exception the embedded code can raise: a TypeError
(calling a non-function, or reading a property of `undefined`). -/
inductive JsError where
  | typeError
deriving Repr, DecidableEq

/-- Native JavaScript ToBoolean, as used by `!cache[args]` in `memoize`
(line 436).  Falsy values are `false`, `0`, the empty string and
`undefined` (and `null`/`NaN`, which are outside the model). -/
def jsTruthy : JsVal → Bool
  | .vnum n => n != 0
  | .vinf _ => true
  | .vstr s => s != ""
  | .vbool b => b
  | .vundefined => false
  | .varr _ => true
  | .vobj _ => true
  | .vnative _ => true

/-- JavaScript strict equality `===` on the primitive values the claims
compare.  Mixed-type comparisons are `false`; identity of two array or
object references is not modelled (no claim compares two containers
with `===`). -/
def jsStrictEq : JsVal → JsVal → Bool
  | .vnum a, .vnum b => a == b
  | .vinf a, .vinf b => a == b
  | .vstr a, .vstr b => a == b
  | .vbool a, .vbool b => a == b
  | .vundefined, .vundefined => true
  | .vnative a, .vnative b => a == b
  | _, _ => false

/-- JavaScript `+` on two numbers.  The claims only ever add numbers,
so the string-concatenation and coercion cases are collapsed to
`undefined` (they are never reached by any theorem below). -/
def jsAdd : JsVal → JsVal → JsVal
  | .vnum a, .vnum b => .vnum (a + b)
  | _, _ => .vundefined

mutual

/-- How `Array.prototype.join` (hence `Array.prototype.toString`, used
by `memoize` at line 434) renders one element: `undefined` becomes the
empty string, numbers and booleans print, nested arrays join
recursively. -/
def jsJoinElem : JsVal → String
  | .vundefined => ""
  | .vnum n => toString n
  | .vinf pos => cond pos "Infinity" "-Infinity"
  | .vstr s => s
  | .vbool b => cond b "true" "false"
  | .varr es => jsJoinList es
  | .vobj _ => "[object Object]"
  | .vnative name => "function " ++ name ++ "() \x7b [native code] \x7d"

/-- Comma-join of a list of values, i.e. `Array.prototype.toString`. -/
def jsJoinList : List JsVal → String
  | [] => ""
  | [x] => jsJoinElem x
  | x :: y :: rest => jsJoinElem x ++ "," ++ jsJoinList (y :: rest)

end

/-- The cache key `memoize` computes: `toArray(arguments).toString()`
(line 434). -/
def argsKey (args : List JsVal) : String := jsJoinList args

/-- Whether `k` names a member of `Object.prototype`, the prototype of
every plain object literal: the seven standard members plus the legacy
annex-B accessors present in the usual hosts.  Every one of them reads
back as a truthy value (a function — or, for the accessor
`__proto__`, the `Object.prototype` object itself, also truthy). -/
def objProtoMember : String → Bool
  | "constructor" => true
  | "hasOwnProperty" => true
  | "isPrototypeOf" => true
  | "propertyIsEnumerable" => true
  | "toLocaleString" => true
  | "toString" => true
  | "valueOf" => true
  | "__proto__" => true
  | "__defineGetter__" => true
  | "__defineSetter__" => true
  | "__lookupGetter__" => true
  | "__lookupSetter__" => true
  | _ => false

/-- Property read on a plain JavaScript object represented as an
association list (first binding wins; objects built by the embedded
code have distinct keys).  An own property wins; otherwise the read
walks the prototype chain of the object literal and finds the
inherited `Object.prototype` member of that name when there is one —
this is what `cache[args]` in `memoize` evaluates — and only a key
that names neither reads as `undefined`. -/
def objGet (ps : List (String × JsVal)) (k : String) : JsVal :=
  match ps.find? (fun p => p.1 == k) with
  | some p => p.2
  | none => if objProtoMember k then .vnative k else .vundefined

/-- Property write `o[k] = v` on an object represented as an
association list: an existing key is overwritten in place (JavaScript
keeps the original insertion position), a new key is appended.
Assignment always creates or updates an OWN property — a subsequent
`objGet` finds it before any inherited `Object.prototype` member. -/
def objSet (ps : List (String × JsVal)) (k : String) (v : JsVal) : List (String × JsVal) :=
  if ps.any (fun p => p.1 == k) then ps.map (fun p => if p.1 == k then (k, v) else p)
  else ps ++ [(k, v)]

/-- Reading `item[key]` where `item` is a record value: defined for
object values, `undefined` otherwise (numeric-string keys on arrays are
never used by the claims). -/
def jsGetProp (v : JsVal) (k : String) : JsVal :=
  match v with
  | .vobj ps => objGet ps k
  | _ => .vundefined

/-- Reading `arr[i]` where `i` is a loop counter (a nonnegative
integer index): the element for an in-bounds index of an array,
`undefined` otherwise. -/
def jsIndexNat (v : JsVal) (i : Nat) : JsVal :=
  match v with
  | .varr es => es.getD i .vundefined
  | _ => .vundefined

/-- Reading `coll[x]` where `x` is an arbitrary value — the expression
`max` and `min` actually evaluate (lines 274, 288), since their `each`
callback binds the *element* to the name `i` and then indexes the
collection with it.  Only a nonnegative in-bounds integer hits an array
slot; everything else reads `undefined`. -/
def jsIndexVal (v : JsVal) (x : JsVal) : JsVal :=
  match v, x with
  | .varr es, .vnum n => if n < 0 then .vundefined else es.getD n.toNat .vundefined
  | _, _ => .vundefined

namespace g_

/-- Embeds `isArray` (line 621): `obj instanceof Array`. -/
def isArray : JsVal → Bool
  | .varr _ => true
  | _ => false

/-- Embeds `isString` (line 616): `obj instanceof String`.  A primitive
string is NOT an instance of `String` (only wrapper objects built with
`new String(..)` are, and those are outside the model), so this test is
false on every value of the model. -/
def isString : JsVal → Bool
  | _ => false

/-- Embeds `isIndexed` (line 626): `isArray(obj) || isString(obj)`. -/
def isIndexed (v : JsVal) : Bool := isArray v || isString v

/-- Embeds the library predicate `isTruthy` (line 596):
`val !== false && val != null`.  Distinct from native truthiness:
here `0` and the empty string count as truthy. -/
def isTruthy (v : JsVal) : Bool :=
  !(jsStrictEq v (.vbool false)) && !(jsStrictEq v .vundefined)

/-- Embeds `isGreaterThan` (line 641): `x > y` with JavaScript
comparison semantics on the values the claims compare.  A comparison
involving `undefined` coerces to NaN and is false; strings compare
lexicographically; numeric coercion of mixed operand types is never
reached by the claims and is collapsed to false. -/
def isGreaterThan : JsVal → JsVal → Bool
  | .vnum a, .vnum b => b < a
  | .vnum _, .vinf pos => !pos
  | .vinf pos, .vnum _ => pos
  | .vinf a, .vinf b => a && !b
  | .vstr a, .vstr b => b < a
  | _, _ => false

/-- Embeds the module-level `keys` (lines 502-510): the `for..in` key
list.  `for..in` over an array or a primitive string enumerates its
index strings; over a plain object, its property names. -/
def keys : JsVal → List String
  | .vobj ps => ps.map Prod.fst
  | .varr es => (List.range es.length).map toString
  | .vstr s => (List.range s.length).map toString
  | _ => []

/-- Embeds `vals` (lines 515-523): the `for..in` value list. -/
def vals : JsVal → List JsVal
  | .vobj ps => ps.map Prod.snd
  | .varr es => es
  | .vstr s => s.toList.map (fun c => .vstr (String.mk [c]))
  | _ => []

/-- Embeds `len` (lines 645-659): `coll.length` for arrays and strings,
otherwise the number of `for..in` keys. -/
def len (v : JsVal) : Nat :=
  match v with
  | .varr es => es.length
  | .vstr s => s.length
  | _ => (keys v).length

/-- Embeds `isEmpty` (line 661): `len(coll) === 0`. -/
def isEmpty (v : JsVal) : Bool := len v == 0

/-- Helper for the indexed branch of `each`: the list of
`(coll[i], i)` argument pairs the loop at lines 63-65 produces,
starting from index `i0`. -/
def eachIdx : List JsVal → Nat → List (JsVal × JsVal)
  | [], _ => []
  | a :: rest, i0 => (a, .vnum i0) :: eachIdx rest (i0 + 1)

/-- Embeds `each` (lines 56-75) by its call trace: the list of
`(first-argument, second-argument)` pairs passed to `func`, in order.
Indexed branch (arrays): `func(coll[i], i)` for `i = 0 .. length-1`.
Non-indexed branch: the code executes `ks = keys(coll)`, but the local
variable `keys` declared at line 58 shadows the module-level `keys`
function, so this calls `undefined` and throws a TypeError before any
visit happens.  (`isIndexed` is true exactly on arrays in this model,
since `isString` tests `instanceof String`.) -/
def each (coll : JsVal) : Except JsError (List (JsVal × JsVal)) :=
  match coll with
  | .varr es => .ok (eachIdx es 0)
  | _ => .error .typeError

/-- Embeds `map` (lines 82-101): a fresh `result` array receives
`func(item)` for every visited item, so the outcome is the trace of
`each` with `func` applied to each first argument. -/
def map (coll : JsVal) (func : JsVal → JsVal) : Except JsError (List JsVal) :=
  (each coll).map (fun t => t.map (fun p => func p.1))

/-- Embeds `filter` (lines 157-167): a fresh `result` array receives
the visited items for which `pred(item)` holds. -/
def filter (coll : JsVal) (pred : JsVal → Bool) : Except JsError (List JsVal) :=
  (each coll).map (fun t => (t.map Prod.fst).filter pred)

/-- Embeds `not` (lines 221-225): `filter` with the negated
predicate. -/
def not (coll : JsVal) (pred : JsVal → Bool) : Except JsError (List JsVal) :=
  filter coll (fun i => !(pred i))

/-- Reading `coll.length` as the expression at line 231 does: the
length of an array or string, a `length` property if a plain object
happens to have one, `undefined` otherwise. -/
def lengthProp : JsVal → JsVal
  | .varr es => .vnum es.length
  | .vstr s => .vnum s.length
  | .vobj ps => objGet ps "length"
  | _ => .vundefined

/-- Embeds `all` (lines 230-232):
`coll.length === filter(coll, pred).length`.  JavaScript evaluates
`coll.length` first (it never throws), then the `filter` call — which
throws a TypeError on a non-indexed collection — and only then
compares with `===`. -/
def all (coll : JsVal) (pred : JsVal → Bool) : Except JsError Bool :=
  match filter coll pred with
  | .error e => .error e
  | .ok res => .ok (jsStrictEq (lengthProp coll) (.vnum res.length))

/-- Embeds `any` (lines 237-239): `filter(coll, pred).length > 0`. -/
def any (coll : JsVal) (pred : JsVal → Bool) : Except JsError Bool :=
  match filter coll pred with
  | .error e => .error e
  | .ok res => .ok (0 < res.length)

/-- Embeds `find` (lines 174-176): `filter(coll, pred)[0]`. -/
def find (coll : JsVal) (pred : JsVal → Bool) : Except JsError JsVal :=
  match filter coll pred with
  | .error e => .error e
  | .ok res => .ok (res.headD .vundefined)

/-- Embeds the anonymous criteria predicate inside `where`
(lines 182-189): an item matches when no key of `crit` satisfies
`crit[key] !== item[key]`. -/
def critMatch (crit : List (String × JsVal)) (item : JsVal) : Bool :=
  crit.all (fun kv => jsStrictEq kv.2 (jsGetProp item kv.1))

/-- Embeds `reduce` (lines 109-137) when a `seed` argument is supplied
(`arguments.length` is 3, so `noSeed` is false throughout).  An empty
collection returns the collection itself (line 114).  Otherwise every
visit executes `seed = func(seed, item, i)`, so the result is a left
fold over the trace of `each` starting from the given seed. -/
def reduce (coll : JsVal) (func : JsVal → JsVal → JsVal → JsVal) (seed : JsVal) :
    Except JsError JsVal :=
  if isEmpty coll then .ok coll
  else (each coll).map (fun t => t.foldl (fun acc p => func acc p.1 p.2) seed)

/-- Embeds `reduce` when no `seed` is supplied (`noSeed` starts true):
an empty collection returns itself; otherwise the first visited item
becomes the accumulator and `func` runs from the second visit on. -/
def reduceNoSeed (coll : JsVal) (func : JsVal → JsVal → JsVal → JsVal) :
    Except JsError JsVal :=
  if isEmpty coll then .ok coll
  else (each coll).map (fun t =>
    match t with
    | [] => .vundefined
    | p :: rest => rest.foldl (fun acc q => func acc q.1 q.2) p.1)

/-- The body of the `for` loop in `zip` (lines 315-321), phrased by the
number of iterations left: each pass pushes
`map(args, function(arr) { return arr[i] })` — a fresh tuple array —
onto `result`.  The `map` here is the library `map` over the (indexed)
arguments array, so it cannot throw. -/
def zipLoop (args : List JsVal) (i : Nat) : Nat → List JsVal → Except JsError (List JsVal)
  | 0, acc => .ok acc
  | n + 1, acc =>
    match map (.varr args) (fun arr => jsIndexNat arr i) with
    | .error e => .error e
    | .ok t => zipLoop args (i + 1) n (acc ++ [.varr t])

/-- Embeds `zip` (lines 309-324).  With no arguments, `args[0]` is
`undefined` and reading its `.length` throws a TypeError.  Otherwise
`len` is `args[0].length` — `undefined` for a non-array first argument,
which makes the loop guard `i < len` false immediately — and the loop
runs `len` times. -/
def zip (args : List JsVal) : Except JsError (List JsVal) :=
  match args with
  | [] => .error .typeError
  | a0 :: rest =>
    zipLoop (a0 :: rest) 0 (match a0 with | .varr es => es.length | _ => 0) []

/-- Embeds `max` (lines 270-280).  The `each` callback names its first
parameter `i`, but `each` passes the *element* first, so the body
compares `coll[element]` — the collection indexed by the element value —
against the running result. -/
def max (coll : JsVal) : Except JsError JsVal :=
  (each coll).map (fun t =>
    t.foldl
      (fun result p =>
        if isGreaterThan (jsIndexVal coll p.1) result then jsIndexVal coll p.1 else result)
      (.vinf false))

/-- Embeds `min` (lines 284-294): same element-as-index pattern as
`max`, updating when `coll[element] > result` is false, seeded at
`Infinity`. -/
def min (coll : JsVal) : Except JsError JsVal :=
  (each coll).map (fun t =>
    t.foldl
      (fun result p =>
        if isGreaterThan (jsIndexVal coll p.1) result then result else jsIndexVal coll p.1)
      (.vinf true))

/-- Embeds `nth` (lines 456-459): `undefined` for a non-indexed
collection, otherwise `coll[index]`.  The index is an `Int` so that
negative indices (which read `undefined`) are representable. -/
def nth (coll : JsVal) (index : Int) : JsVal :=
  if isIndexed coll = false then .vundefined
  else
    match coll with
    | .varr es => if index < 0 then .vundefined else es.getD index.toNat .vundefined
    | _ => .vundefined

/-- Result of one call to the wrapper returned by `curry`
(lines 353-370): either `func` was applied immediately (the argument
count matched the declared arity), or a closure capturing the applied
arguments was returned. -/
inductive CurryResult where
  | value (v : JsVal)
  | closure (applied : List JsVal)
deriving Repr

/-- Embeds one call of the wrapper `curry(func)` returns.  `arity` is
`func.length`, the declared parameter count of `func`; `func` itself is
modelled as a function on its (variadic) argument list.  When
`func.length === args.length` the original function is applied at once;
otherwise the wrapper returns the inner closure, which `curriedCall`
below models. -/
def curry (arity : Nat) (func : List JsVal → JsVal) (args : List JsVal) : CurryResult :=
  if args.length = arity then .value (func args) else .closure args

/-- Embeds a call of the inner closure of `curry` (lines 360-367): the
captured arguments are concatenated with the new ones, in call order,
and `func` is applied to the result — whatever the second count is. -/
def curriedCall (func : List JsVal → JsVal) (applied more : List JsVal) : JsVal :=
  func (applied ++ more)

/-- Embeds one call of the wrapper `memoize(func)` returns
(lines 430-442), threading the private `cache` explicitly.  The key is
`toArray(arguments).toString()`; the guard is `!cache[args]` — native
falsiness of an ordinary property read, NOT presence of the key — and
on a falsy read `func` runs and its result is stored.  The call
returns `cache[args]` read after the optional store.  Because the
cache is the plain literal from line 431, the read walks the prototype
chain (see `objGet`): a key naming an `Object.prototype` member finds
the inherited truthy member, so for such a key `func` never runs.  The
third component counts how many times `func` was invoked during this
call (0 or 1). -/
def memoApply (func : List JsVal → JsVal) (cache : List (String × JsVal))
    (args : List JsVal) : JsVal × List (String × JsVal) × Nat :=
  let key := argsKey args
  if jsTruthy (objGet cache key) = false then
    let cache2 := objSet cache key (func args)
    (objGet cache2 key, cache2, 1)
  else (objGet cache key, cache, 0)

/-- Two successive calls of a single memoized wrapper with the same
argument list, starting from the fresh empty cache the `memoize` call
created: returns both results and the total number of invocations of
`func`. -/
def memoTwice (func : List JsVal → JsVal) (args : List JsVal) : JsVal × JsVal × Nat :=
  let r1 := memoApply func [] args
  let r2 := memoApply func r1.2.1 args
  (r1.1, r2.1, r1.2.2 + r2.2.2)

/-
Heap model.  The frame claim (no collection operation mutates its input
container) is about JavaScript object identity, so the containers the
operations receive are modelled as references into an explicit store.
Element *values* stay immutable `JsVal`s: the claim assumes the
callbacks are pure, and none of the operations write into an element.
Every mutation the source performs is a `result.push(..)` or
`result[prop] = ..` on an accumulator allocated fresh inside the call;
the heap versions below reproduce exactly those writes.
-/

/-- A heap object: an array or a plain object. -/
inductive HeapObj where
  | harr (elems : List JsVal)
  | hobj (props : List (String × JsVal))
deriving Repr

/-- The store: heap objects addressed by allocation index. -/
abbrev Store := List HeapObj

/-- Allocation of a fresh object (`[]` or `\x7b\x7d` literals in the
source): the new reference is the previous store length. -/
def alloc (s : Store) (o : HeapObj) : Nat × Store := (s.length, s ++ [o])

/-- `result.push(v)` on the array at reference `r`. -/
def pushElem (s : Store) (r : Nat) (v : JsVal) : Store :=
  match s.get? r with
  | some (.harr es) => s.set r (.harr (es ++ [v]))
  | _ => s

/-- `result[k] = v` on the object at reference `r`. -/
def writeProp (s : Store) (r : Nat) (k : String) (v : JsVal) : Store :=
  match s.get? r with
  | some (.hobj ps) => s.set r (.hobj (objSet ps k v))
  | _ => s

/-- Heap version of `each`: the callback is pure (the claim assumes
this), so `each` itself performs no store write; on a non-indexed
collection it throws (shadowed `keys`, line 67) with the store
untouched. -/
def eachH (s : Store) (r : Nat) : Except JsError Unit × Store :=
  match s.get? r with
  | some (.harr _) => (.ok (), s)
  | _ => (.error .typeError, s)

/-- Heap version of `map` (lines 82-101): allocate the fresh `result`
array, then push `func(item)` per visited element; throws after the
allocation when the input is not indexed. -/
def mapH (s : Store) (r : Nat) (func : JsVal → JsVal) : Except JsError Nat × Store :=
  let a := alloc s (.harr [])
  match a.2.get? r with
  | some (.harr es) => (.ok a.1, es.foldl (fun st v => pushElem st a.1 (func v)) a.2)
  | _ => (.error .typeError, a.2)

/-- Heap version of `filter` (lines 157-167). -/
def filterH (s : Store) (r : Nat) (pred : JsVal → Bool) : Except JsError Nat × Store :=
  let a := alloc s (.harr [])
  match a.2.get? r with
  | some (.harr es) =>
    (.ok a.1, es.foldl (fun st v => if pred v then pushElem st a.1 v else st) a.2)
  | _ => (.error .typeError, a.2)

/-- Heap version of `not` (lines 221-225): `filter` with the negated
predicate. -/
def notH (s : Store) (r : Nat) (pred : JsVal → Bool) : Except JsError Nat × Store :=
  filterH s r (fun i => !(pred i))

/-- What `reduce` evaluates to in the heap model: the collection
reference itself (empty case, line 114) or an accumulated value. -/
inductive HRes where
  | ref (r : Nat)
  | val (v : JsVal)
deriving Repr

/-- Heap version of `reduce` with a seed (lines 109-137): the
accumulator is a local variable, so the store is never written; an
empty collection returns its own reference. -/
def reduceH (s : Store) (r : Nat) (func : JsVal → JsVal → JsVal → JsVal) (seed : JsVal) :
    Except JsError HRes × Store :=
  match s.get? r with
  | some (.harr es) =>
    if es.length = 0 then (.ok (.ref r), s)
    else (.ok (.val ((eachIdx es 0).foldl (fun acc p => func acc p.1 p.2) seed)), s)
  | some (.hobj ps) =>
    if ps.length = 0 then (.ok (.ref r), s) else (.error .typeError, s)
  | none => (.error .typeError, s)

/-- Heap version of `where` (lines 181-190): `filter` with the
criteria predicate.  The records inside the array are element values;
the criteria object is read-only and is modelled as a pure list. -/
def whereH (s : Store) (r : Nat) (crit : List (String × JsVal)) :
    Except JsError Nat × Store :=
  filterH s r (critMatch crit)

/-- Heap version of `select` (lines 195-199): `map` projecting each
record to its value at `key`. -/
def selectH (s : Store) (r : Nat) (key : String) : Except JsError Nat × Store :=
  mapH s r (fun item => jsGetProp item key)

/-- Heap version of `zip` (lines 309-324): reads `args[0].length`
(throwing when there is no first argument), allocates the fresh
`result`, and pushes one tuple per index.  The per-tuple arrays the
inner `map` allocates are represented as inline array values — they are
freshly created and never aliased, so this loses no mutation. -/
def zipH (s : Store) (argRefs : List Nat) : Except JsError Nat × Store :=
  match argRefs with
  | [] => (.error .typeError, s)
  | r0 :: _ =>
    let a := alloc s (.harr [])
    let stop := match a.2.get? r0 with
      | some (.harr es) => es.length
      | _ => 0
    (.ok a.1,
     (List.range stop).foldl
       (fun st i =>
          pushElem st a.1 (.varr (argRefs.map (fun ar =>
            match st.get? ar with
            | some (.harr es) => es.getD i .vundefined
            | _ => .vundefined))))
       a.2)

/-- Heap version of `mixin` (lines 536-548): allocate the fresh
`result` object, then for every argument object copy each `for..in`
property onto `result` (later arguments overwrite on collision).
`for..in` over an array argument enumerates its index strings. -/
def mixinH (s : Store) (argRefs : List Nat) : Except JsError Nat × Store :=
  let a := alloc s (.hobj [])
  (.ok a.1,
   argRefs.foldl
     (fun st ar =>
        match st.get? ar with
        | some (.hobj ps) => ps.foldl (fun st2 kv => writeProp st2 a.1 kv.1 kv.2) st
        | some (.harr es) =>
          (List.range es.length).foldl
            (fun st2 i => writeProp st2 a.1 (toString i) (es.getD i .vundefined)) st
        | none => st)
     a.2)

/-- Heap version of `clone` (lines 528-531): `coll.slice(0)` allocates
a fresh array with the same elements; an object is cloned via
`mixin(\x7b\x7d, coll)`, which first allocates the empty literal.  A
dangling reference (not constructible here) falls through to
`undefined`, modelled as `none`. -/
def cloneH (s : Store) (r : Nat) : Except JsError (Option Nat) × Store :=
  match s.get? r with
  | some (.harr es) =>
    let a := alloc s (.harr es)
    (.ok (some a.1), a.2)
  | some (.hobj _) =>
    let e := alloc s (.hobj [])
    let m := mixinH e.2 [e.1, r]
    (m.1.map some, m.2)
  | none => (.ok none, s)

end g_

/-
Specification-side definitions.  These follow the words of the spec
(not the source) and are only used on the specification side of the
claim theorems.
-/

/-- Specification-side left fold over the elements of a sequence in
traversal order, carrying the running index: the fold the spec says
`reduce(c, f, seed)` computes.  `func` is applied once per element,
including the first. -/
def foldElems (func : JsVal → JsVal → JsVal → JsVal) : JsVal → List JsVal → Nat → JsVal
  | acc, [], _ => acc
  | acc, x :: rest, i => foldElems func (func acc x (.vnum i)) rest (i + 1)

/-- The function `(a, b, c) => a + b + c` from the spec examples for
`curry`, as a function of its (variadic) argument list; its declared
arity is 3. -/
def sum3 (args : List JsVal) : JsVal :=
  jsAdd (jsAdd (args.getD 0 .vundefined) (args.getD 1 .vundefined)) (args.getD 2 .vundefined)

/-- A concrete two-object store used to instantiate the frame theorem:
the objects of the spec example `mixin(\x7ba:1\x7d, \x7ba:2, b:3\x7d)`. -/
def demoStore : g_.Store :=
  [.hobj [("a", .vnum 1)], .hobj [("a", .vnum 2), ("b", .vnum 3)]]

/-
Helper lemmas about the embedding.
-/

theorem eachIdx_map_fst (es : List JsVal) : ∀ i0, (g_.eachIdx es i0).map Prod.fst = es := by
  induction es with
  | nil => intro i0; rfl
  | cons a rest ih =>
    intro i0
    simp only [g_.eachIdx, List.map_cons, ih]

theorem eachIdx_map_comp (f : JsVal → JsVal) (es : List JsVal) :
    ∀ i0, (g_.eachIdx es i0).map (fun p => f p.1) = es.map f := by
  induction es with
  | nil => intro i0; rfl
  | cons a rest ih =>
    intro i0
    simp only [g_.eachIdx, List.map_cons, ih]

theorem eachIdx_length (es : List JsVal) : ∀ i0, (g_.eachIdx es i0).length = es.length := by
  induction es with
  | nil => intro i0; rfl
  | cons a rest ih =>
    intro i0
    simp only [g_.eachIdx, List.length_cons, ih]

theorem eachIdx_getD (es : List JsVal) :
    ∀ (i0 i : Nat), i < es.length →
      (g_.eachIdx es i0).getD i (.vundefined, .vundefined) = (es.getD i .vundefined, .vnum (i0 + i)) := by
  induction es with
  | nil => intro i0 i h; exact absurd h (Nat.not_lt_zero i)
  | cons a rest ih =>
    intro i0 i h
    match i with
    | 0 => simp [g_.eachIdx]
    | j + 1 =>
      have hj : j < rest.length := Nat.lt_of_succ_lt_succ h
      have := ih (i0 + 1) j hj
      simp only [g_.eachIdx, List.getD_cons_succ, this]
      congr 2
      omega

theorem eachIdx_foldl (func : JsVal → JsVal → JsVal → JsVal) (es : List JsVal) :
    ∀ (seed : JsVal) (i0 : Nat),
      (g_.eachIdx es i0).foldl (fun acc p => func acc p.1 p.2) seed =
        foldElems func seed es i0 := by
  induction es with
  | nil => intro seed i0; rfl
  | cons a rest ih =>
    intro seed i0
    simp only [g_.eachIdx, List.foldl_cons, foldElems, ih]

theorem map_varr (f : JsVal → JsVal) (es : List JsVal) :
    g_.map (.varr es) f = .ok (es.map f) := by
  simp only [g_.map, g_.each, Except.map, eachIdx_map_comp]

theorem filter_varr (pred : JsVal → Bool) (es : List JsVal) :
    g_.filter (.varr es) pred = .ok (es.filter pred) := by
  simp only [g_.filter, g_.each, Except.map, eachIdx_map_fst]

/-
Claim C1.
-/

/-- C1, counterexample.  The claim states that on an associative
mapping, `each` invokes `visit` once per element passing the element
and its string key; for the one-entry mapping that would be the single
call `visit(1, "a")`, i.e. the trace `[(1, "a")]`.  The code instead
throws a TypeError (the local variable `keys` shadows the `keys`
function), so the trace is not that. -/
theorem c1_each_counterexample :
    g_.each (.vobj [("a", .vnum 1)]) ≠ .ok [(.vnum 1, .vstr "a")] := by
  intro h
  exact Except.noConfusion h

/-- C1, amended: for an indexed container, `each` invokes `visit` once
per element, in index order, passing the element first and its integer
index second.  For a non-indexed container, `each` throws a TypeError
before any visit (its local variable `keys` shadows the module-level
`keys` function), so in mapping mode `visit` is never invoked and no
string key is ever passed. -/
theorem c1_each_amended (es : List JsVal) (ps : List (String × JsVal)) :
    (g_.each (.varr es)).map List.length = .ok es.length ∧
    (∀ i, i < es.length →
      (g_.each (.varr es)).map (fun t => t.getD i (.vundefined, .vundefined)) =
        .ok (es.getD i .vundefined, .vnum i)) ∧
    g_.each (.vobj ps) = .error .typeError := by
  refine ⟨?_, ?_, rfl⟩
  · simp only [g_.each, Except.map, eachIdx_length]
  · intro i hi
    have h1 : (g_.each (.varr es)).map (fun t => t.getD i (.vundefined, .vundefined)) =
        .ok ((g_.eachIdx es 0).getD i (.vundefined, .vundefined)) := rfl
    rw [h1, eachIdx_getD es 0 i hi]
    simp

/-- C1, witness: `each([7, 9])` visits `(7, 0)` then `(9, 1)`, and
`each` of the mapping with one key throws. -/
theorem c1_each_witness :
    (g_.each (.varr [.vnum 7, .vnum 9])).map (fun t => t.getD 1 (.vundefined, .vundefined)) =
      .ok (.vnum 9, .vnum 1) ∧
    g_.each (.vobj [("k", .vnum 1)]) = .error .typeError := by
  have h := c1_each_amended [.vnum 7, .vnum 9] [("k", .vnum 1)]
  exact ⟨h.2.1 1 (by decide), h.2.2⟩

/-
Claim C2.
-/

/-- C2, counterexample.  The claim states that for every container,
`reduce(c, f, s)` is the left fold with accumulator `s`, and in
particular that on an empty container the result is the seed itself.
On the empty array with seed `0`, the code returns the empty array
(line 114, `return coll`), not the seed. -/
theorem c2_reduce_counterexample :
    g_.reduce (.varr []) (fun a b _ => jsAdd a b) (.vnum 0) = .ok (.varr []) ∧
    g_.reduce (.varr []) (fun a b _ => jsAdd a b) (.vnum 0) ≠ .ok (.vnum 0) := by
  refine ⟨rfl, fun h => ?_⟩
  have h2 := Except.ok.inj h
  exact JsVal.noConfusion h2

/-- C2, amended: for a NONEMPTY indexed sequence, `reduce(c, f, seed)`
is the left fold of `f` over the elements of `c` in traversal order
starting from `seed`, with `f` invoked on every element including the
first (the fold is `foldElems`, which applies `f` once per element).
For an empty container, `reduce` returns the container itself, not the
seed.  For a nonempty associative mapping, `reduce` throws the
TypeError of the shadowed `keys` in `each`. -/
theorem c2_reduce_amended (es : List JsVal) (ps : List (String × JsVal))
    (func : JsVal → JsVal → JsVal → JsVal) (seed : JsVal) :
    (es ≠ [] → g_.reduce (.varr es) func seed = .ok (foldElems func seed es 0)) ∧
    g_.reduce (.varr []) func seed = .ok (.varr []) ∧
    (ps ≠ [] → g_.reduce (.vobj ps) func seed = .error .typeError) ∧
    g_.reduce (.vobj []) func seed = .ok (.vobj []) := by
  refine ⟨?_, rfl, ?_, rfl⟩
  · intro hne
    have hlen : (g_.len (.varr es) == 0) = false := by
      simp only [g_.len]
      exact beq_eq_false_iff_ne.mpr (fun h => hne (List.eq_nil_of_length_eq_zero h))
    simp only [g_.reduce, g_.isEmpty, hlen, if_false, Bool.false_eq_true, g_.each,
      Except.map, eachIdx_foldl]
  · intro hne
    have hlen : (g_.len (.vobj ps) == 0) = false := by
      simp only [g_.len, g_.keys, List.length_map]
      exact beq_eq_false_iff_ne.mpr (fun h => hne (List.eq_nil_of_length_eq_zero h))
    simp only [g_.reduce, g_.isEmpty, hlen, if_false, Bool.false_eq_true, g_.each]
    rfl

/-- C2, witness: the spec example `reduce([1,2,3,4], (a,b) => a+b, 0)`
evaluates to `10` through the amended theorem, and the empty and
mapping cases evaluate as stated. -/
theorem c2_reduce_witness :
    g_.reduce (.varr [.vnum 1, .vnum 2, .vnum 3, .vnum 4]) (fun a b _ => jsAdd a b) (.vnum 0) =
      .ok (.vnum 10) ∧
    g_.reduce (.vobj [("a", .vnum 1)]) (fun a b _ => jsAdd a b) (.vnum 0) =
      .error .typeError := by
  have h := c2_reduce_amended [.vnum 1, .vnum 2, .vnum 3, .vnum 4] [("a", .vnum 1)]
    (fun a b _ => jsAdd a b) (.vnum 0)
  refine ⟨?_, h.2.2.1 (by simp)⟩
  rw [h.1 (by simp)]
  rfl

theorem objGet_append_self (k : String) (v : JsVal) :
    ∀ ps : List (String × JsVal), ps.any (fun p => p.1 == k) = false →
      objGet (ps ++ [(k, v)]) k = v := by
  intro ps
  induction ps with
  | nil => intro _; simp [objGet, List.find?]
  | cons q rest ih =>
    intro h
    simp only [List.any_cons, Bool.or_eq_false_iff] at h
    simp only [List.cons_append, objGet, List.find?, h.1]
    exact ih h.2

theorem objGet_update_self (k : String) (v : JsVal) :
    ∀ ps : List (String × JsVal), ps.any (fun p => p.1 == k) = true →
      objGet (ps.map (fun p => if p.1 == k then (k, v) else p)) k = v := by
  intro ps
  induction ps with
  | nil => intro h; simp at h
  | cons q rest ih =>
    intro h
    by_cases hq : (q.1 == k) = true
    · simp [objGet, List.find?, hq]
    · have hq2 : (q.1 == k) = false := by
        cases hb : (q.1 == k) with
        | true => exact absurd hb hq
        | false => rfl
      have h3 : rest.any (fun p => p.1 == k) = true := by
        rw [List.any_cons, hq2, Bool.false_or] at h
        exact h
      have hfind : List.find? (fun p => p.1 == k)
          (q :: rest.map (fun p => if p.1 == k then (k, v) else p)) =
          List.find? (fun p => p.1 == k) (rest.map (fun p => if p.1 == k then (k, v) else p)) :=
        List.find?_cons_of_neg _ (by simp [hq2])
      simp only [List.map_cons, hq2, Bool.false_eq_true, if_false, objGet, hfind]
      exact ih h3

/-- Writing key `k` and then reading key `k` yields the written value,
whatever the prior cache contents. -/
theorem objGet_objSet_self (k : String) (v : JsVal) (ps : List (String × JsVal)) :
    objGet (objSet ps k v) k = v := by
  by_cases h : ps.any (fun p => p.1 == k) = true
  · simp only [objSet, h, if_true]
    exact objGet_update_self k v ps h
  · have h2 : ps.any (fun p => p.1 == k) = false := by
      cases hb : ps.any (fun p => p.1 == k) with
      | true => exact absurd hb h
      | false => rfl
    simp only [objSet, h2, Bool.false_eq_true, if_false]
    exact objGet_append_self k v ps h2

/-- Behaviour of one memoized call when the cache entry for the key is
falsy (in particular absent): the function runs and its result is
stored and returned. -/
theorem memoApply_falsy (func : List JsVal → JsVal) (cache : List (String × JsVal))
    (args : List JsVal) (h : jsTruthy (objGet cache (argsKey args)) = false) :
    g_.memoApply func cache args =
      (func args, objSet cache (argsKey args) (func args), 1) := by
  simp only [g_.memoApply, h]
  rw [if_pos trivial, objGet_objSet_self]

/-- Behaviour of one memoized call when the cache entry for the key is
truthy: the cached value is returned and the function is not
invoked. -/
theorem memoApply_truthy (func : List JsVal → JsVal) (cache : List (String × JsVal))
    (args : List JsVal) (h : jsTruthy (objGet cache (argsKey args)) = true) :
    g_.memoApply func cache args = (objGet cache (argsKey args), cache, 0) := by
  simp [g_.memoApply, h]

/-
Claim C3.
-/

/-- C3, counterexample.  The claim states that two successive calls of
a memoized function with identical arguments invoke the function
exactly once, whatever value it returns.  For the constant function
returning `0` — a falsy value — the guard `!cache[args]` is true again
on the second call, so the function is invoked twice. -/
theorem c3_memoize_counterexample :
    g_.memoTwice (fun _ => .vnum 0) [] = (.vnum 0, .vnum 0, 2) ∧
    (g_.memoTwice (fun _ => .vnum 0) []).2.2 ≠ 1 := by
  exact ⟨rfl, by decide⟩

/-- C3, amended: the guard of `memoize` is `!cache[args]` — native
falsiness of an ordinary property read on the cache literal, not
presence of the key — so the claim holds only conditionally.  When the
stringified-argument key names no `Object.prototype` member, two
successive calls with identical arguments both return
`f`-of-the-arguments, and invoke `f` exactly once when that value is
truthy but twice when it is falsy.  When the key IS an
`Object.prototype` member (for example the single string argument
`"constructor"`), the read finds the inherited truthy member, so both
calls return that inherited value and `f` is never invoked at all. -/
theorem c3_memoize_amended (func : List JsVal → JsVal) (args : List JsVal) :
    (objProtoMember (argsKey args) = false →
      g_.memoTwice func args =
        (func args, func args, if jsTruthy (func args) then 1 else 2)) ∧
    (objProtoMember (argsKey args) = true →
      g_.memoTwice func args =
        (.vnative (argsKey args), .vnative (argsKey args), 0)) := by
  constructor
  · intro hp
    have hmiss : jsTruthy (objGet [] (argsKey args)) = false := by
      simp [objGet, List.find?, hp, jsTruthy]
    have hcached : objGet (objSet [] (argsKey args) (func args)) (argsKey args) = func args :=
      objGet_objSet_self _ _ _
    have hstep1 := memoApply_falsy func [] args hmiss
    by_cases ht : jsTruthy (func args) = true
    · have hstep2 := memoApply_truthy func (objSet [] (argsKey args) (func args)) args
        (by rw [hcached]; exact ht)
      simp only [g_.memoTwice, hstep1, hstep2, hcached, ht, if_true]
    · have ht2 : jsTruthy (func args) = false := by
        cases hb : jsTruthy (func args) with
        | true => exact absurd hb ht
        | false => rfl
      have hstep2 := memoApply_falsy func (objSet [] (argsKey args) (func args)) args
        (by rw [hcached]; exact ht2)
      simp only [g_.memoTwice, hstep1, hstep2, objGet_objSet_self, ht2, Bool.false_eq_true,
        if_false]
  · intro hp
    have hit : objGet [] (argsKey args) = .vnative (argsKey args) := by
      simp [objGet, List.find?, hp]
    have htr : jsTruthy (objGet [] (argsKey args)) = true := by
      rw [hit]
      rfl
    have hstep := memoApply_truthy func [] args htr
    simp only [g_.memoTwice, hstep, hit, Nat.add_zero]

/-- C3, witness: with a function constantly returning the truthy `7`,
two calls with no arguments (key `""`, no prototype member) invoke the
function once and both return `7`; two calls with the single argument
`"constructor"` (an `Object.prototype` member) return the inherited
native member and never invoke the function. -/
theorem c3_memoize_amended_witness :
    g_.memoTwice (fun _ => .vnum 7) [] = (.vnum 7, .vnum 7, 1) ∧
    g_.memoTwice (fun _ => .vnum 7) [.vstr "constructor"] =
      (.vnative "constructor", .vnative "constructor", 0) := by
  have h1 := c3_memoize_amended (fun _ => .vnum 7) []
  have h2 := c3_memoize_amended (fun _ => .vnum 7) [.vstr "constructor"]
  exact ⟨(h1.1 (by decide)).trans (by rfl), h2.2 (by decide)⟩

/-
Claim C4.
-/

/-- C4: evaluation of the code at the failing inputs.  The `each`
callback of `max`/`min` names its parameter `i` but receives the
*element*, and the body then reads `coll[i]` — the collection indexed
by the element value.  `max([5, 1])` returns `1` although `5` is an
element and `5 > 1`; `min([0, 2])` returns `undefined` although `0` is
the smallest element. -/
theorem c4_max_min_failing_eval :
    g_.max (.varr [.vnum 5, .vnum 1]) = .ok (.vnum 1) ∧
    g_.max (.varr [.vnum 5, .vnum 1]) ≠ .ok (.vnum 5) ∧
    g_.isGreaterThan (.vnum 5) (.vnum 1) = true ∧
    g_.min (.varr [.vnum 0, .vnum 2]) = .ok .vundefined ∧
    g_.min (.varr [.vnum 0, .vnum 2]) ≠ .ok (.vnum 0) := by
  refine ⟨rfl, ?_, rfl, rfl, ?_⟩
  · intro h
    have h1 : (Except.ok (JsVal.vnum 1) : Except JsError JsVal) = .ok (.vnum 5) := h
    have h2 : JsVal.vnum 1 = JsVal.vnum 5 := Except.ok.inj h1
    have h3 : (1 : Int) = 5 := by injection h2
    omega
  · intro h
    have h1 : (Except.ok JsVal.vundefined : Except JsError JsVal) = .ok (.vnum 0) := h
    have h2 : JsVal.vundefined = JsVal.vnum 0 := Except.ok.inj h1
    exact JsVal.noConfusion h2

/-
Claim C5.
-/

/-- Closed form of the `zip` loop: starting at index `i` with `n`
iterations left, the loop appends one tuple per index `i .. i+n-1`,
where the tuple at index `j` applies `arr[j]` to every argument. -/
theorem zipLoop_closed (args : List JsVal) :
    ∀ (n i : Nat) (acc : List JsVal),
      g_.zipLoop args i n acc =
        .ok (acc ++ (List.range' i n).map
          (fun j => .varr (args.map (fun arr => jsIndexNat arr j)))) := by
  intro n
  induction n with
  | zero => intro i acc; simp [g_.zipLoop]
  | succ m ih =>
    intro i acc
    rw [g_.zipLoop, map_varr]
    show g_.zipLoop args (i + 1) m (acc ++ [.varr (args.map (fun arr => jsIndexNat arr i))]) = _
    rw [ih]
    simp [List.range']

/-- C5: for N input sequences (N at least 1), `zip` produces the
sequence of N-tuples indexed by position whose length is the length of
the FIRST input sequence; tuple `j` holds, for each input sequence, its
element at position `j`, with `undefined` where an input is shorter
than the first. -/
theorem c5_zip_first_length (first : List JsVal) (seqs : List (List JsVal)) :
    g_.zip (.varr first :: seqs.map JsVal.varr) =
      .ok ((List.range first.length).map (fun j =>
        .varr ((first :: seqs).map (fun s => s.getD j .vundefined)))) ∧
    ((List.range first.length).map (fun j =>
        JsVal.varr ((first :: seqs).map (fun s => s.getD j .vundefined)))).length = first.length := by
  constructor
  · rw [g_.zip, zipLoop_closed, List.nil_append, ← List.range_eq_range']
    have harg : ∀ j : Nat,
        (JsVal.varr first :: seqs.map JsVal.varr).map (fun arr => jsIndexNat arr j) =
          (first :: seqs).map (fun s => s.getD j .vundefined) := by
      intro j
      simp only [List.map_cons, List.map_map]
      rfl
    simp only [harg]
  · simp

/-
Claim C6.
-/

/-- C6: calling the curried wrapper with exactly the declared arity
invokes the function immediately on those arguments; calling it with
fewer returns the inner closure, and calling that closure with the
remaining arguments invokes the function on the concatenation of the
two argument groups in call order (which then has exactly the declared
arity). -/
theorem c6_curry_partial_application (k : Nat) (func : List JsVal → JsVal)
    (args1 args2 : List JsVal) :
    (args1.length = k → g_.curry k func args1 = .value (func args1)) ∧
    (args1.length < k →
      g_.curry k func args1 = .closure args1 ∧
      (args1.length + args2.length = k →
        g_.curriedCall func args1 args2 = func (args1 ++ args2) ∧
        (args1 ++ args2).length = k)) := by
  refine ⟨fun h => ?_, fun h => ⟨?_, fun h2 => ⟨rfl, ?_⟩⟩⟩
  · simp [g_.curry, h]
  · simp [g_.curry, Nat.ne_of_lt h]
  · simp only [List.length_append]
    exact h2

/-- C6, witness: both spec examples.  Full application
`curry((a,b,c)=>a+b+c)(1,2,3)` yields `6` at once; partial application
`curry((a,b,c)=>a+b+c)(1)` yields the closure over `[1]`, and calling
it with `(2,3)` yields `6`. -/
theorem c6_curry_partial_application_witness :
    g_.curry 3 sum3 [.vnum 1, .vnum 2, .vnum 3] = .value (.vnum 6) ∧
    g_.curry 3 sum3 [.vnum 1] = .closure [.vnum 1] ∧
    g_.curriedCall sum3 [.vnum 1] [.vnum 2, .vnum 3] = .vnum 6 := by
  have h := c6_curry_partial_application 3 sum3 [.vnum 1] [.vnum 2, .vnum 3]
  have hfull := c6_curry_partial_application 3 sum3 [.vnum 1, .vnum 2, .vnum 3] []
  refine ⟨?_, (h.2 (by decide)).1, ?_⟩
  · rw [hfull.1 (by decide)]
    rfl
  · rw [((h.2 (by decide)).2 (by decide)).1]
    rfl

/-
Claim C7.
-/

/-- C7: evaluation at the failing input, and the partition property on
the inputs where the code works.  On a non-indexed container, `filter`
throws the TypeError of the shadowed `keys` inside `each` — it never
visits an element — so `filter` and `not` cannot partition an
associative mapping, contradicting the claim for every container.  On
an indexed sequence the claim is right: `filter` keeps exactly the
elements satisfying the predicate, `not` exactly the others, both in
traversal order, their concatenation is a permutation of the input and
their lengths sum to its length. -/
theorem c7_filter_not_partition :
    g_.filter (.vobj [("a", .vnum 1)]) (fun _ => true) = .error .typeError ∧
    ∀ (es : List JsVal) (pred : JsVal → Bool),
      g_.filter (.varr es) pred = .ok (es.filter pred) ∧
      g_.not (.varr es) pred = .ok (es.filter (fun x => !(pred x))) ∧
      (es.filter pred ++ es.filter (fun x => !(pred x))).Perm es ∧
      (es.filter pred).length + (es.filter (fun x => !(pred x))).length = es.length := by
  refine ⟨rfl, fun es pred => ⟨filter_varr pred es, filter_varr _ es, ?_, ?_⟩⟩
  · exact List.filter_append_perm pred es
  · have hp := (List.filter_append_perm pred es).length_eq
    simpa [List.length_append] using hp

/-
Claim C9.
-/

/-- C9, counterexample.  The claim states that `all` on an associative
mapping returns false, even for an empty mapping or one whose every
element satisfies the predicate.  In fact `all` never returns at all on
a mapping: the mismatched length comparison is never reached, because
`filter` throws first (the shadowed `keys` in `each`). -/
theorem c9_all_counterexample :
    g_.all (.vobj [("a", .vnum 1)]) (fun _ => true) ≠ .ok false ∧
    g_.all (.vobj []) (fun _ => true) ≠ .ok false := by
  exact ⟨fun h => Except.noConfusion h, fun h => Except.noConfusion h⟩

/-- C9, amended: for every associative mapping and every predicate,
`all` throws a TypeError — `filter` traverses via `each`, whose
non-indexed branch calls the shadowed local `keys` — so the comparison
of the absent `length` property against the filtered length that the
claim describes is never evaluated, and no boolean is returned. -/
theorem c9_all_amended (ps : List (String × JsVal)) (pred : JsVal → Bool) :
    g_.all (.vobj ps) pred = .error .typeError := rfl

/-
Claim C10.
-/

/-- C10: `nth` never fails.  On a non-indexed collection it returns
`undefined`; on an indexed collection it returns the element at the
given position when that position is in bounds, and `undefined` when
the index is negative or past the end. -/
theorem c10_nth_total (coll : JsVal) (i : Int) :
    (g_.isIndexed coll = false → g_.nth coll i = .vundefined) ∧
    (∀ es, coll = .varr es →
      (∀ h2 : 0 ≤ i, ∀ h3 : i.toNat < es.length,
        g_.nth coll i = es.get ⟨i.toNat, h3⟩) ∧
      ((i < 0 ∨ (es.length : Int) ≤ i) → g_.nth coll i = .vundefined)) := by
  constructor
  · intro h
    simp [g_.nth, h]
  · intro es he
    subst he
    constructor
    · intro h2 h3
      have hneg : ¬ i < 0 := by omega
      simp only [g_.nth, g_.isIndexed, g_.isArray, g_.isString, Bool.true_or,
        Bool.false_eq_true, if_neg, if_false, hneg, reduceCtorEq]
      exact List.getD_eq_get es .vundefined h3
    · intro hout
      by_cases hneg : i < 0
      · simp [g_.nth, hneg]
      · have hge : (es.length : Int) ≤ i := by
          cases hout with
          | inl hl => exact absurd hl hneg
          | inr hr => exact hr
        have hlen : es.length ≤ i.toNat := by omega
        have hnn : g_.nth (.varr es) i = es.getD i.toNat .vundefined := by
          simp [g_.nth, g_.isIndexed, g_.isArray, g_.isString, hneg]
        rw [hnn, List.getD_eq_default es .vundefined hlen]

/-- C10, witness: `nth([7, 9], 1)` is `9`, `nth([7, 9], 5)` and
`nth(\x7ba:1\x7d, 0)` are `undefined`. -/
theorem c10_nth_total_witness :
    g_.nth (.varr [.vnum 7, .vnum 9]) 1 = .vnum 9 ∧
    g_.nth (.varr [.vnum 7, .vnum 9]) 5 = .vundefined ∧
    g_.nth (.vobj [("a", .vnum 1)]) 0 = .vundefined := by
  have h := c10_nth_total (.varr [.vnum 7, .vnum 9]) 1
  have h5 := c10_nth_total (.varr [.vnum 7, .vnum 9]) 5
  have hobj := c10_nth_total (.vobj [("a", .vnum 1)]) 0
  refine ⟨?_, ?_, hobj.1 rfl⟩
  · exact (h.2 [.vnum 7, .vnum 9] rfl).1 (by decide) (by decide)
  · exact (h5.2 [.vnum 7, .vnum 9] rfl).2 (Or.inr (by decide))

/-
Claim C8: frame lemmas for the heap model.
-/

/-- Appending a fresh object (an allocation) leaves reads below the
original store length unchanged. -/
theorem get?_append_one (s : g_.Store) (o : g_.HeapObj) (q : Nat) (h : q < s.length) :
    (s ++ [o]).get? q = s.get? q := by
  rw [List.get?_eq_getElem?, List.get?_eq_getElem?, List.getElem?_append_left h]

/-- Overwriting slot `r` leaves reads at any other slot unchanged. -/
theorem get?_set_ne_store (s : g_.Store) (r : Nat) (o : g_.HeapObj) (q : Nat) (h : q ≠ r) :
    (s.set r o).get? q = s.get? q := by
  rw [List.get?_eq_getElem?, List.get?_eq_getElem?,
    List.getElem?_set_ne (fun he => h he.symm)]

/-- A push onto the array at slot `r` leaves reads at any other slot
unchanged. -/
theorem get?_pushElem (s : g_.Store) (r : Nat) (v : JsVal) (q : Nat) (h : q ≠ r) :
    (g_.pushElem s r v).get? q = s.get? q := by
  unfold g_.pushElem
  cases hr : s.get? r with
  | none => rfl
  | some o =>
    cases o with
    | harr es => exact get?_set_ne_store s r _ q h
    | hobj ps => rfl

/-- A property write on the object at slot `r` leaves reads at any
other slot unchanged. -/
theorem get?_writeProp (s : g_.Store) (r : Nat) (k : String) (v : JsVal) (q : Nat)
    (h : q ≠ r) : (g_.writeProp s r k v).get? q = s.get? q := by
  unfold g_.writeProp
  cases hr : s.get? r with
  | none => rfl
  | some o =>
    cases o with
    | harr es => rfl
    | hobj ps => exact get?_set_ne_store s r _ q h

/-- A fold whose every step preserves the read at `q` preserves the
read at `q`. -/
theorem get?_foldl {α : Type} (step : g_.Store → α → g_.Store) (q : Nat)
    (hstep : ∀ st a, (step st a).get? q = st.get? q) :
    ∀ (l : List α) (st : g_.Store), (l.foldl step st).get? q = st.get? q := by
  intro l
  induction l with
  | nil => intro st; rfl
  | cons a as ih => intro st; rw [List.foldl_cons, ih, hstep]

/-- The store coming out of `eachH` is the store that went in. -/
theorem eachH_store (s : g_.Store) (r : Nat) : (g_.eachH s r).2 = s := by
  unfold g_.eachH
  cases hr : s.get? r with
  | none => rfl
  | some o => cases o <;> rfl

/-- The store coming out of `reduceH` is the store that went in: the
accumulator is a local, and the empty case returns the input
reference. -/
theorem reduceH_store (s : g_.Store) (r : Nat) (func : JsVal → JsVal → JsVal → JsVal)
    (seed : JsVal) : (g_.reduceH s r func seed).2 = s := by
  unfold g_.reduceH
  cases hr : s.get? r with
  | none => rfl
  | some o =>
    cases o with
    | harr es => by_cases he : es.length = 0 <;> simp [he]
    | hobj ps => by_cases he : ps.length = 0 <;> simp [he]

/-- `mapH` writes only to its freshly allocated result array, so every
pre-existing object reads back unchanged (also when it throws). -/
theorem mapH_frame (s : g_.Store) (r : Nat) (func : JsVal → JsVal) (q : Nat)
    (h : q < s.length) : (g_.mapH s r func).2.get? q = s.get? q := by
  have hq : q ≠ s.length := Nat.ne_of_lt h
  unfold g_.mapH
  simp only [g_.alloc]
  cases hr : (s ++ [g_.HeapObj.harr []]).get? r with
  | none => exact get?_append_one s _ q h
  | some o =>
    cases o with
    | harr es =>
      exact (get?_foldl _ q (fun st v => get?_pushElem st s.length (func v) q hq) es
        (s ++ [g_.HeapObj.harr []])).trans (get?_append_one s _ q h)
    | hobj ps => exact get?_append_one s _ q h

/-- `filterH` writes only to its freshly allocated result array. -/
theorem filterH_frame (s : g_.Store) (r : Nat) (pred : JsVal → Bool) (q : Nat)
    (h : q < s.length) : (g_.filterH s r pred).2.get? q = s.get? q := by
  have hq : q ≠ s.length := Nat.ne_of_lt h
  unfold g_.filterH
  simp only [g_.alloc]
  cases hr : (s ++ [g_.HeapObj.harr []]).get? r with
  | none => exact get?_append_one s _ q h
  | some o =>
    cases o with
    | harr es =>
      refine (get?_foldl _ q ?_ es (s ++ [g_.HeapObj.harr []])).trans
        (get?_append_one s _ q h)
      intro st v
      by_cases hp : pred v = true
      · simp only [hp, if_true]
        exact get?_pushElem st s.length v q hq
      · simp only [hp, Bool.false_eq_true, if_false]
    | hobj ps => exact get?_append_one s _ q h

/-- `zipH` writes only to its freshly allocated result array. -/
theorem zipH_frame (s : g_.Store) (argRefs : List Nat) (q : Nat) (h : q < s.length) :
    (g_.zipH s argRefs).2.get? q = s.get? q := by
  have hq : q ≠ s.length := Nat.ne_of_lt h
  unfold g_.zipH
  cases argRefs with
  | nil => rfl
  | cons r0 rest =>
    simp only [g_.alloc]
    exact (get?_foldl _ q (fun st i => get?_pushElem st s.length _ q hq) _
      (s ++ [g_.HeapObj.harr []])).trans (get?_append_one s _ q h)

/-- `mixinH` writes only to its freshly allocated result object. -/
theorem mixinH_frame (s : g_.Store) (argRefs : List Nat) (q : Nat) (h : q < s.length) :
    (g_.mixinH s argRefs).2.get? q = s.get? q := by
  have hq : q ≠ s.length := Nat.ne_of_lt h
  unfold g_.mixinH
  simp only [g_.alloc]
  refine (get?_foldl _ q ?_ argRefs (s ++ [g_.HeapObj.hobj []])).trans
    (get?_append_one s _ q h)
  intro st ar
  cases hr : st.get? ar with
  | none => rfl
  | some o =>
    cases o with
    | harr es =>
      exact get?_foldl _ q (fun st2 i => get?_writeProp st2 s.length _ _ q hq) _ st
    | hobj ps =>
      exact get?_foldl _ q (fun st2 kv => get?_writeProp st2 s.length _ _ q hq) ps st

/-- `mixinH` returns a freshly allocated reference: the previous store
length, which is no existing object. -/
theorem mixinH_fresh (s : g_.Store) (argRefs : List Nat) :
    (g_.mixinH s argRefs).1 = .ok s.length := rfl

/-- `cloneH` writes only to freshly allocated objects. -/
theorem cloneH_frame (s : g_.Store) (r : Nat) (q : Nat) (h : q < s.length) :
    (g_.cloneH s r).2.get? q = s.get? q := by
  unfold g_.cloneH
  cases hr : s.get? r with
  | none => rfl
  | some o =>
    cases o with
    | harr es =>
      simp only [g_.alloc]
      exact get?_append_one s _ q h
    | hobj ps =>
      simp only [g_.alloc]
      have h2 : q < (s ++ [g_.HeapObj.hobj []]).length := by
        simp only [List.length_append, List.length_singleton]
        omega
      exact (mixinH_frame (s ++ [g_.HeapObj.hobj []]) [s.length, r] q h2).trans
        (get?_append_one s _ q h)

/-- C8: no exported collection operation mutates its input containers.
For every store, every input reference and every pure callback,
criteria object, key or seed, each of `each`, `map`, `filter`, `not`,
`reduce`, `where`, `select`, `zip`, `mixin` and `clone` leaves every
pre-existing heap object reading back unchanged — including when the
operation throws — and `mixin` in particular returns a freshly
allocated object (the reference equal to the old store length, which
names no existing object). -/
theorem c8_no_input_mutation (s : g_.Store) (r : Nat) (func : JsVal → JsVal)
    (pred : JsVal → Bool) (red : JsVal → JsVal → JsVal → JsVal) (seed : JsVal)
    (crit : List (String × JsVal)) (key : String) (argRefs : List Nat)
    (q : Nat) (h : q < s.length) :
    (g_.eachH s r).2.get? q = s.get? q ∧
    (g_.mapH s r func).2.get? q = s.get? q ∧
    (g_.filterH s r pred).2.get? q = s.get? q ∧
    (g_.notH s r pred).2.get? q = s.get? q ∧
    (g_.reduceH s r red seed).2.get? q = s.get? q ∧
    (g_.whereH s r crit).2.get? q = s.get? q ∧
    (g_.selectH s r key).2.get? q = s.get? q ∧
    (g_.zipH s argRefs).2.get? q = s.get? q ∧
    (g_.mixinH s argRefs).2.get? q = s.get? q ∧
    (g_.cloneH s r).2.get? q = s.get? q ∧
    (g_.mixinH s argRefs).1 = .ok s.length := by
  refine ⟨?_, mapH_frame s r func q h, filterH_frame s r pred q h,
    filterH_frame s r _ q h, ?_, filterH_frame s r _ q h, mapH_frame s r _ q h,
    zipH_frame s argRefs q h, mixinH_frame s argRefs q h, cloneH_frame s r q h,
    mixinH_fresh s argRefs⟩
  · rw [eachH_store]
  · rw [reduceH_store]

/-- C8, witness: in the two-object store of the spec example
`mixin(\x7ba:1\x7d, \x7ba:2, b:3\x7d)`, running `mixin` on both objects
leaves the first input reading back unchanged and returns the fresh
reference `2`. -/
theorem c8_no_input_mutation_witness :
    0 < demoStore.length ∧
    (g_.mixinH demoStore [0, 1]).2.get? 0 = demoStore.get? 0 ∧
    (g_.mixinH demoStore [0, 1]).1 = .ok 2 := by
  have h := c8_no_input_mutation demoStore 0 (fun v => v) (fun _ => true)
    (fun a _ _ => a) .vundefined [] "k" [0, 1] 0 (by decide)
  exact ⟨by decide, h.2.2.2.2.2.2.2.2.1, h.2.2.2.2.2.2.2.2.2.2⟩
